import Mathlib

/-!
Verification of the Audacity pipe-scripting repository.

Shallow embedding of the Python sources:

* `src/src/audacity_pipe/pipe.py`   — `AudacityPipe.receive_response`
* `src/src/audacity_pipe/commands.py` — command serialization (`Commands`)
* `src/export_tracks_individually.py` — per-track export workflow
* `src/export_clips_individually.py`  — per-clip export workflow

Python strings are modelled as `List Char` (or `String` where only
concatenation is involved), floating-point times as `Rat` (only order
comparisons occur in the code), and machine I/O as explicit event lists.
-/

set_option linter.unusedVariables false

/-! Protocol client: `AudacityPipe.receive_response`.

The inbound channel is modelled as the finite list of results of the
successive `readline()` calls: `[]` (the empty line) is Python's falsy
`""`, i.e. "no data available yet"; after the event list is exhausted the
channel is silent forever, so the loop can only time out.  The configured
timeout is abstracted as `idle`, the number of empty reads the loop
tolerates (the code sleeps 0.1 s after each empty read and raises once the
elapsed time exceeds `self.timeout`). -/

/-- Outcome of one `receive_response` call: the returned (cleaned) response
text, or the `AudacityError("Timeout waiting for response")` exit. -/
inductive RecvResult where
  | ok (response : List Char)
  | timeout
deriving DecidableEq, Repr

/-- Python `line.strip() == ""`: the line consists of whitespace only. -/
def isBlankLine (l : List Char) : Bool := l.all Char.isWhitespace

/-- Python `s.strip()`: drop whitespace from both ends. -/
def trimList (l : List Char) : List Char :=
  List.rdropWhile Char.isWhitespace (List.dropWhile Char.isWhitespace l)

/-- The status sentinel removed by `receive_response`. -/
def sentinel : List Char := "BatchCommand finished: OK".toList

/-- One left-to-right pass removing non-overlapping occurrences of `pat`,
as Python's `s.replace(pat, "")` does; `fuel` bounds the recursion and is
instantiated with `s.length`, which is always enough. -/
def removeOccs (pat : List Char) : Nat → List Char → List Char
  | 0, s => s
  | _ + 1, [] => []
  | fuel + 1, c :: cs =>
    if pat.isPrefixOf (c :: cs) ∧ pat ≠ [] then
      removeOccs pat fuel ((c :: cs).drop pat.length)
    else
      c :: removeOccs pat fuel cs

/-- Python `s.replace(pat, "")`. -/
def pyReplaceEmpty (pat s : List Char) : List Char := removeOccs pat s.length s

/-- The response clean-up in `receive_response`:
`response.strip()` then `.replace("BatchCommand finished: OK", "")` then
`.strip()`. -/
def cleanResponse (r : List Char) : List Char :=
  trimList (pyReplaceEmpty sentinel (trimList r))

/-- The accumulation loop of `receive_response`.  `events` are the
`readline()` results still to come, `idle` the remaining empty-read budget,
`acc` the `response` accumulator.  Mirrors the source: an empty read checks
the timeout and retries; a blank line terminates only once `acc` is
nonempty, and is skipped otherwise; any other line is appended. -/
def recvLoop : List (List Char) → Nat → List Char → RecvResult
  | [], _, _ => .timeout
  | l :: rest, idle, acc =>
    if l = [] then
      match idle with
      | 0 => .timeout
      | n + 1 => recvLoop rest n acc
    else if isBlankLine l then
      if acc = [] then recvLoop rest idle acc else .ok acc
    else recvLoop rest idle (acc ++ l)

/-- Model of `AudacityPipe.receive_response`: run the accumulation loop, then clean
the accumulated text on success. -/
def receive_response (events : List (List Char)) (idle : Nat) : RecvResult :=
  match recvLoop events idle [] with
  | .ok raw => .ok (cleanResponse raw)
  | .timeout => .timeout

/-- Specification-side predicate: the event list contains a blank line that
follows at least one non-blank accumulated line (`seen` records whether a
non-blank line has been accumulated so far).  Empty reads are invisible;
blank lines before any content do not terminate. -/
def hasTerminator (seen : Bool) : List (List Char) → Bool
  | [] => false
  | l :: rest =>
    if l = [] then hasTerminator seen rest
    else if isBlankLine l then
      if seen then true else hasTerminator seen rest
    else hasTerminator true rest

/-! Command facade: `Commands` (commands.py). -/

/-- Python f-string interpolation of a `bool` (`f"{b}"`). -/
def pyStrBool (b : Bool) : String := if b then "True" else "False"

/-- The `1 if b else 0` idiom used by the `set_*` methods. -/
def pyBool01 (b : Bool) : String := if b then "1" else "0"

/-- Model of `Commands.open_project`: builds
`f"OpenProject2: Filename='{filename}' AddToHistory={add_to_history}"`. -/
def open_project (filename : String) (add_to_history : Bool) : String :=
  "OpenProject2: Filename='" ++ filename ++ "' AddToHistory=" ++ pyStrBool add_to_history

/-- Model of `Commands.set_track_audio`: optional parameters are appended in order
(mute, solo, gain, pan); booleans use the `1 if b else 0` idiom; the
numeric gain/pan values are modelled as their already-rendered text. -/
def set_track_audio (mute solo : Option Bool) (gain pan : Option String) : String :=
  let params : List String :=
    (match mute with | some b => ["Mute=" ++ pyBool01 b] | none => []) ++
    (match solo with | some b => ["Solo=" ++ pyBool01 b] | none => []) ++
    (match gain with | some g => ["Gain=" ++ g] | none => []) ++
    (match pan with | some p => ["Pan=" ++ p] | none => [])
  "SetTrackAudio:" ++ (if params.isEmpty then "" else " " ++ String.intercalate " " params)

/-- Model of `Commands.get_info`: builds `f"GetInfo: Type={info_type}"`; the
`format_type` parameter is accepted but never used. -/
def get_info (info_type : String) (format_type : String) : String :=
  "GetInfo: Type=" ++ info_type

/-- Whether `pat` occurs as a contiguous substring somewhere in the list. -/
def hasOcc (pat : List Char) : List Char → Bool
  | [] => pat.isPrefixOf []
  | c :: cs => pat.isPrefixOf (c :: cs) || hasOcc pat cs

/-! Clip export workflow (export_clips_individually.py). -/

/-- In `sanitize_filename`, the character predicate of `re.sub(r'[<>:"/\\|?*]', '_', name)`. -/
def invalidFilenameChar (c : Char) : Bool :=
  c = '<' || c = '>' || c = ':' || c = '"' || c = '/' || c = '\\' ||
  c = '|' || c = '?' || c = '*'

/-- The characters removed by `name.strip('. ')`. -/
def stripDotSpace (c : Char) : Bool := c = '.' || c = ' '

/-- Model of `re.sub(r'[<>:"/\\|?*]', '_', name)`: replace each invalid character by
an underscore. -/
def replaceInvalidChars (s : List Char) : List Char :=
  s.map (fun c => if invalidFilenameChar c then '_' else c)

/-- Model of `name.strip('. ')`: drop leading and trailing dots/spaces. -/
def stripName (l : List Char) : List Char :=
  List.rdropWhile stripDotSpace (List.dropWhile stripDotSpace l)

/-- Model of `if len(name) > 200: name = name[:200]`. -/
def truncateName (l : List Char) : List Char :=
  if l.length > 200 then l.take 200 else l

/-- Model of `if not name: name = "unnamed"`. -/
def defaultName (l : List Char) : List Char :=
  if l = [] then "unnamed".toList else l

/-- Model of `sanitize_filename` from export_clips_individually.py: replace invalid
characters, strip leading/trailing dots and spaces, truncate to 200
characters, and substitute "unnamed" for an empty result — in that order. -/
def sanitize_filename (s : List Char) : List Char :=
  defaultName (truncateName (stripName (replaceInvalidChars s)))

/-- One entry of the parsed `GetInfo: Type=Tracks` JSON; only the fields the
scripts read.  A missing key is `none`. -/
structure TrackJson where
  name : Option String
  mute : Option Int
deriving DecidableEq, Repr

/-- One entry of the parsed `GetInfo: Type=Clips` JSON; only the fields the
scripts read (`stop` models the JSON key "end", a Lean keyword). -/
structure ClipJson where
  name : Option String
  track : Option Int
  start : Option Rat
  stop : Option Rat
deriving DecidableEq, Repr

/-- The `track_mute_status` dict lookup `track_mute_status.get(t, False)`:
the dict maps each index `0 ≤ i < len(tracks)` to `tracks[i].get('mute', 0) == 1`;
any other key is absent and defaults to `False`. -/
def track_mute_status (tracks : List TrackJson) (t : Int) : Bool :=
  if t < 0 then false
  else
    match tracks[t.toNat]? with
    | some tr => tr.mute.getD 0 == 1
    | none => false

/-- First filtering stage: a clip is kept when
`not track_mute_status.get(clip.get('track', 0), False)`. -/
def keptByMuteFilter (tracks : List TrackJson) (c : ClipJson) : Bool :=
  !(track_mute_status tracks (c.track.getD 0))

/-- The `clips_to_export` list: the clips surviving the mute filter. -/
def clips_to_export (tracks : List TrackJson) (clips : List ClipJson) : List ClipJson :=
  clips.filter (keptByMuteFilter tracks)

/-- Second stage, inside the export loop: the clip is skipped when
`track_idx == -1 or start_time < 0 or end_time <= start_time` with
defaults `track=-1`, `start=-10.0`, `end=-10.0`. -/
def validClipData (c : ClipJson) : Bool :=
  !((c.track.getD (-1) == -1) || decide (c.start.getD (-10) < 0) ||
    decide (c.stop.getD (-10) ≤ c.start.getD (-10)))

/-- The clips for which an export is actually attempted: both stages. -/
def attemptedClips (tracks : List TrackJson) (clips : List ClipJson) : List ClipJson :=
  (clips_to_export tracks clips).filter validClipData

/-- Modelled from the spec's words (claim side): a clip is included iff its
track reference resolves (a `track` key present and not the `-1` sentinel),
the owning track's mute flag is false or absent (absent entries default to
unmuted), its start time is ≥ 0 and its end time exceeds its start. -/
def specClipIncluded (tracks : List TrackJson) (c : ClipJson) : Bool :=
  match c.track, c.start, c.stop with
  | some t, some s, some e =>
    !(t == -1) && !(track_mute_status tracks t) && decide (0 ≤ s) && decide (s < e)
  | _, _, _ => false

/-- The candidate output path with numeric suffix `k` (`k = 0` is the
original `f"{prefix}{safe_name}.{ext}"`, `k ≥ 1` is
`f"{prefix}{safe_name}_{k}.{ext}"`). -/
def clipCandidate (pfx safe ext : String) (k : Nat) : String :=
  if k = 0 then pfx ++ safe ++ "." ++ ext
  else pfx ++ safe ++ "_" ++ toString k ++ "." ++ ext

/-- The `while os.path.exists(output_path):` collision loop.  `ex` is the
filesystem existence check (fixed during the loop in this model), `counter`
and `path` the loop variables; `fuel` bounds the iterations, `none` meaning
the loop would still be running. -/
def resolveLoop (ex : String → Bool) (pfx safe ext : String) :
    Nat → Nat → String → Option String
  | 0, _, _ => none
  | fuel + 1, counter, path =>
    if ex path then
      resolveLoop ex pfx safe ext fuel (counter + 1) (clipCandidate pfx safe ext counter)
    else some path

/-- Filename collision resolution as in the source: start from the plain
candidate with `counter = 1`. -/
def resolveOutputPath (ex : String → Bool) (pfx safe ext : String) (fuel : Nat) :
    Option String :=
  resolveLoop ex pfx safe ext fuel 1 (clipCandidate pfx safe ext 0)

/-- The facade calls issued by the clip-export loop, at the granularity of
`Commands` methods. -/
inductive AudCmd where
  | selectNone
  | selectTracks (track : Int) (track_count : Nat) (mode : String)
  | selectTime (start : Rat) (stop : Rat) (relative_to : String)
  | copy
  | delete
  | paste
  | exportAudio (path : String) (num_channels : Nat)
deriving DecidableEq, Repr

/-- The per-clip body of the export loop in `export_clips_individually`
(the `try:` block), as the sequence of facade calls it issues. -/
def clipExportBody (temp_track_idx track_idx : Int) (start_time end_time : Rat)
    (output_path : String) : List AudCmd :=
  [ .selectNone, .selectTracks track_idx 1 "Set",
    .selectTime start_time end_time "ProjectStart",
    .copy,
    .selectNone, .selectTracks temp_track_idx 1 "Set",
    .selectTime 0 100 "ProjectStart",
    .delete,
    .selectNone, .selectTracks temp_track_idx 1 "Set",
    .paste,
    .selectNone, .selectTracks temp_track_idx 1 "Set",
    .selectTime 0 (end_time - start_time) "ProjectStart",
    .exportAudio output_path 2 ]

/-- The time selection in effect at each `delete` command of a command
sequence (`none` when no `SelectTime` has been issued since the last
`SelectNone`). -/
def deleteSelections : Option (Rat × Rat) → List AudCmd → List (Option (Rat × Rat))
  | _, [] => []
  | _, .selectNone :: rest => deleteSelections none rest
  | _, .selectTime s e _ :: rest => deleteSelections (some (s, e)) rest
  | cur, .delete :: rest => cur :: deleteSelections cur rest
  | cur, c :: rest => deleteSelections cur rest

/-! Track export workflow (export_tracks_individually.py).

The remote mute flags are the only state the workflow mutates; they are
modelled as a `List Bool` (index = 0-based track index, `true` = muted).
`failAt i` abstracts whether the `export_audio` call of iteration `i`
raises; the surrounding `try:` covers the whole workflow, so a raise
aborts the loop and skips the final unmute pass. -/

/-- Result of one `export_tracks_individually` run: final mute flags, the
0-based indices exported successfully in order, and the index whose export
raised (aborting the run), if any. -/
structure RunResult where
  mutes : List Bool
  exported : List Nat
  failed : Option Nat
deriving DecidableEq, Repr

/-- The `for j in range(n): select_tracks(j); set_track_audio(mute=b)` pass. -/
def muteLoop (n : Nat) (b : Bool) (m : List Bool) : List Bool :=
  (List.range n).foldl (fun acc j => acc.set j b) m

/-- The per-track export loop: for each remaining index, mute all tracks,
unmute the current one, select all, export; a raising export ends the run
immediately with the mute state as it stands. -/
def trackLoop (failAt : Nat → Bool) (n : Nat) :
    List Nat → List Bool → List Nat → RunResult
  | [], m, ex => ⟨m, ex, none⟩
  | i :: rest, m, ex =>
    let m2 := (muteLoop n true m).set i false
    if failAt i then ⟨m2, ex, some i⟩
    else trackLoop failAt n rest m2 (ex ++ [i])

/-- Model of `export_tracks_individually`: zero tracks stop early; otherwise run the
loop over `range n`; only when no export raised does the final
`for j in range(num_tracks): ... set_track_audio(mute=False)` pass run. -/
def export_tracks_individually (failAt : Nat → Bool) (n : Nat) (m0 : List Bool) :
    RunResult :=
  if n = 0 then ⟨m0, [], none⟩
  else
    let r := trackLoop failAt n (List.range n) m0 []
    match r.failed with
    | some _ => r
    | none => ⟨muteLoop n false r.mutes, r.exported, none⟩

/-- A failure oracle that fails exactly the first track. -/
def failAtZero : Nat → Bool := fun i => i == 0

/-- A failure oracle that never fails. -/
def noFail : Nat → Bool := fun _ => false

/-- A destination-directory state with exactly `t.wav` and `t_1.wav` present. -/
def exTwoCollisions : String → Bool := fun s => s == "t.wav" || s == "t_1.wav"

/-- An inbound channel that produces data but never a blank line. -/
def recvSilentEvents : List (List Char) := [['x'], ['x']]

/-- An inbound channel: one empty read, one content line, one blank line. -/
def recvOkEvents : List (List Char) := [[], ['a', '\n'], ['\n']]

/-- A 201-character name whose 200-character truncation ends in a space. -/
def longSpacedName : List Char := List.replicate 199 'a' ++ [' ', 'a']

/-! Theorems.  Each claim theorem is preceded by a doc comment naming the
claim it settles. -/

/-- C10: in the clip-export loop, the scratch-track clearing step before
each paste deletes exactly the fixed time range [0, 100] seconds — the only
`Delete:` issued in a clip's body is under a `SelectTime: Start=0 End=100`
selection, for every clip, independent of clip times and paths; no other
range is ever deleted. -/
theorem clip_clear_deletes_fixed_range (temp_track_idx track_idx : Int)
    (start_time end_time : Rat) (output_path : String) :
    deleteSelections none
      (clipExportBody temp_track_idx track_idx start_time end_time output_path) =
      [some (0, 100)] := rfl

/-- C7 counterexample: `open_project` serializes its boolean parameter by
interpolating the Python bool, producing the text `True`, and the digits
`0`/`1` appear nowhere in the command. -/
theorem open_project_bool_not_01 :
    open_project "p.aup3" true =
      "OpenProject2: Filename='p.aup3' AddToHistory=True" ∧
    (open_project "p.aup3" true).toList.contains '1' = false ∧
    (open_project "p.aup3" true).toList.contains '0' = false := by decide

/-- C7 amended: the optional boolean parameters of `set_track_audio` (and
its `set_*` siblings using the `1 if b else 0` idiom) are serialized as
`0`/`1`: with gain and pan omitted, the command never contains `True` or
`False`, and a supplied mute/solo flag appears exactly as `Mute=1`,
`Mute=0`, `Solo=1` or `Solo=0`. -/
theorem set_track_audio_bools_as_01 :
    ∀ mute solo : Option Bool,
      (hasOcc "True".toList (set_track_audio mute solo none none).toList = false ∧
       hasOcc "False".toList (set_track_audio mute solo none none).toList = false) ∧
      (mute = some true →
        hasOcc "Mute=1".toList (set_track_audio mute solo none none).toList = true) ∧
      (mute = some false →
        hasOcc "Mute=0".toList (set_track_audio mute solo none none).toList = true) ∧
      (solo = some true →
        hasOcc "Solo=1".toList (set_track_audio mute solo none none).toList = true) ∧
      (solo = some false →
        hasOcc "Solo=0".toList (set_track_audio mute solo none none).toList = true) := by
  decide

/-- Witness for the amended C7 theorem at a concrete call. -/
theorem set_track_audio_bools_as_01_witness :
    hasOcc "Mute=1".toList (set_track_audio (some true) (some false) none none).toList = true ∧
    hasOcc "Solo=0".toList (set_track_audio (some true) (some false) none none).toList = true :=
  ⟨(set_track_audio_bools_as_01 (some true) (some false)).2.1 rfl,
   (set_track_audio_bools_as_01 (some true) (some false)).2.2.2.2 rfl⟩

theorem hasOcc_append_of_head_notin (a : Char) (pt p s : List Char)
    (hp : ∀ c ∈ p, c ≠ a) :
    hasOcc (a :: pt) (p ++ s) = hasOcc (a :: pt) s := by
  induction p with
  | nil => rfl
  | cons c cs ih =>
    have hca : (a == c) = false := by
      rw [beq_eq_false_iff_ne]
      exact fun h => hp c (by simp) h.symm
    simp only [List.cons_append, hasOcc, List.isPrefixOf, hca, Bool.false_and,
      Bool.false_or]
    exact ih (fun x hx => hp x (by simp [hx]))

/-- C9: the command text produced by `get_info` depends only on the
`info_type` argument — any two `format_type` values yield the identical
command — and, unless the caller smuggles it in through `info_type` itself,
the text never contains `Format`. -/
theorem get_info_ignores_format (info_type f1 f2 : String) :
    get_info info_type f1 = get_info info_type f2 ∧
    (hasOcc "Format".toList info_type.toList = false →
      hasOcc "Format".toList (get_info info_type f1).toList = false) := by
  refine ⟨rfl, fun h => ?_⟩
  have hsplit : (get_info info_type f1).toList =
      "GetInfo: Type=".toList ++ info_type.toList := by
    simp [get_info]
  rw [hsplit, show ("Format".toList) = 'F' :: "ormat".toList from rfl,
    hasOcc_append_of_head_notin 'F' _ _ _ (by decide)]
  exact h

/-- Witness for the C9 theorem at concrete arguments. -/
theorem get_info_ignores_format_witness :
    hasOcc "Format".toList "Tracks".toList = false ∧
    get_info "Tracks" "JSON" = get_info "Tracks" "Brief" ∧
    hasOcc "Format".toList (get_info "Tracks" "JSON").toList = false :=
  ⟨by decide, (get_info_ignores_format "Tracks" "JSON" "Brief").1,
   (get_info_ignores_format "Tracks" "JSON" "Brief").2 (by decide)⟩

theorem resolveLoop_reaches (ex : String → Bool) (pfx safe ext : String) (N : Nat)
    (hlt : ∀ k, k < N → ex (clipCandidate pfx safe ext k) = true)
    (hN : ex (clipCandidate pfx safe ext N) = false) :
    ∀ fuel j, j ≤ N → N - j < fuel →
      resolveLoop ex pfx safe ext fuel (j + 1) (clipCandidate pfx safe ext j) =
        some (clipCandidate pfx safe ext N) := by
  intro fuel
  induction fuel with
  | zero => omega
  | succ f ih =>
    intro j hj hfuel
    by_cases hjN : j = N
    · subst hjN
      simp [resolveLoop, hN]
    · have hjlt : j < N := lt_of_le_of_ne hj hjN
      simp only [resolveLoop, hlt j hjlt, if_true]
      exact ih (j + 1) (by omega) (by omega)

/-- C5: when exactly the candidate paths with suffixes `0..N-1` (the plain
name and `_1 … _(N-1)`) already exist and the `_N` candidate does not, the
collision loop — which re-checks existence on each successive candidate —
returns the `_N` candidate, for every N ≥ 1 and enough fuel. -/
theorem collision_resolution_next_free (ex : String → Bool) (pfx safe ext : String)
    (N fuel : Nat) (hpos : 1 ≤ N)
    (hexists : ∀ k, k < N → ex (clipCandidate pfx safe ext k) = true)
    (hfree : ex (clipCandidate pfx safe ext N) = false)
    (hfuel : N < fuel) :
    resolveOutputPath ex pfx safe ext fuel = some (clipCandidate pfx safe ext N) := by
  unfold resolveOutputPath
  have h := resolveLoop_reaches ex pfx safe ext N hexists hfree fuel 0 (by omega) (by omega)
  simpa using h

/-- Witness for the C5 theorem: with `t.wav` and `t_1.wav` present, the
resolved path is `t_2.wav`. -/
theorem collision_resolution_next_free_witness :
    resolveOutputPath exTwoCollisions "" "t" "wav" 10 = some "t_2.wav" := by
  have h := collision_resolution_next_free exTwoCollisions "" "t" "wav" 2 10
    (by decide) (by intro k hk; interval_cases k <;> decide) (by decide) (by decide)
  rw [h]
  decide

/-- C3 counterexample: with two tracks and the export of track 0 raising,
the run aborts (`failed = some 0`) and track 1 is never attempted
(`exported = []`), so a per-track failure is not isolated and the loop does
not continue. -/
theorem track_export_failure_not_isolated :
    (export_tracks_individually failAtZero 2 [false, false]).exported = [] ∧
    (export_tracks_individually failAtZero 2 [false, false]).failed = some 0 := by
  decide

/-- C2 counterexample: with two tracks and the export of track 0 raising,
the final unmute pass is skipped — the run ends with track 1 still muted,
so not every track ends unmuted. -/
theorem track_export_restore_skipped_on_failure :
    (export_tracks_individually failAtZero 2 [false, false]).mutes = [false, true] ∧
    ((export_tracks_individually failAtZero 2 [false, false]).mutes.all
      (fun b => !b)) = false := by
  decide

theorem recvLoop_timeout_of_no_terminator :
    ∀ (events : List (List Char)) (idle : Nat) (acc : List Char),
      hasTerminator (acc != []) events = false → recvLoop events idle acc = .timeout := by
  intro events
  induction events with
  | nil => intro idle acc h; rfl
  | cons l rest ih =>
    intro idle acc h
    by_cases hl : l = []
    · subst hl
      have h' : hasTerminator (acc != []) rest = false := by
        simpa [hasTerminator] using h
      cases idle with
      | zero => simp [recvLoop]
      | succ n => simpa [recvLoop] using ih n acc h'
    · by_cases hb : isBlankLine l = true
      · by_cases ha : acc = []
        · subst ha
          have h' : hasTerminator (([] : List Char) != []) rest = false := by
            simpa [hasTerminator, hl, hb] using h
          simpa [recvLoop, hl, hb] using ih idle [] h'
        · exfalso
          have hseen : (acc != []) = true := bne_iff_ne.mpr ha
          simp [hasTerminator, hl, hb, hseen] at h
      · have hne : ((acc ++ l) != []) = true := by
          rw [bne_iff_ne]
          intro hnil
          exact hl (List.append_eq_nil.mp hnil).2
        have h' : hasTerminator ((acc ++ l) != []) rest = false := by
          rw [hne]
          simpa [hasTerminator, hl, hb] using h
        simpa [recvLoop, hl, hb] using ih idle (acc ++ l) h'

/-- C1: for every run of `receive_response`, the call returns an
accumulated response only if the channel produced a blank line following at
least one non-blank accumulated line (blank lines before any content are
skipped as noise); if no such terminating blank line is observed within the
idle budget modelling the configured timeout, the call raises the timeout
error instead of returning. -/
theorem receive_response_framing (events : List (List Char)) (idle : Nat) :
    (hasTerminator false events = false → receive_response events idle = .timeout) ∧
    (∀ r, receive_response events idle = .ok r → hasTerminator false events = true) := by
  constructor
  · intro h
    unfold receive_response
    rw [recvLoop_timeout_of_no_terminator events idle [] (by simpa using h)]
  · intro r hr
    by_contra hterm
    have hf : hasTerminator false events = false := by
      cases h' : hasTerminator false events
      · rfl
      · exact absurd h' hterm
    have ht := recvLoop_timeout_of_no_terminator events idle [] (by simpa using hf)
    unfold receive_response at hr
    rw [ht] at hr
    exact RecvResult.noConfusion hr

/-- Witness for the C1 theorem: a silent-then-chatty channel without a
terminator times out; a channel with content followed by a blank line has
the terminator and returns. -/
theorem receive_response_framing_witness :
    receive_response recvSilentEvents 5 = .timeout ∧
    hasTerminator false recvOkEvents = true :=
  ⟨(receive_response_framing recvSilentEvents 5).1 (by decide),
   (receive_response_framing recvOkEvents 5).2 ['a'] (by decide)⟩

theorem muteLoop_length : ∀ (n : Nat) (b : Bool) (m : List Bool),
    (muteLoop n b m).length = m.length := by
  intro n
  induction n with
  | zero => intro b m; rfl
  | succ k ih =>
    intro b m
    unfold muteLoop at *
    rw [List.range_succ, List.foldl_append]
    simp only [List.foldl_cons, List.foldl_nil, List.length_set]
    exact ih b m

theorem foldl_set_shift (b : Bool) :
    ∀ (l : List Nat) (c : Bool) (xs : List Bool),
      l.foldl (fun a j => a.set (j + 1) b) (c :: xs) =
        c :: l.foldl (fun a j => a.set j b) xs := by
  intro l
  induction l with
  | nil => intro c xs; rfl
  | cons j t ih =>
    intro c xs
    simp only [List.foldl_cons]
    rw [show (c :: xs).set (j + 1) b = c :: xs.set j b from rfl]
    exact ih c (xs.set j b)

theorem muteLoop_replicate : ∀ (n : Nat) (b : Bool) (m : List Bool),
    m.length = n → muteLoop n b m = List.replicate n b := by
  intro n
  induction n with
  | zero =>
    intro b m h
    rw [List.length_eq_zero] at h
    subst h
    rfl
  | succ k ih =>
    intro b m h
    cases m with
    | nil => simp at h
    | cons x xs =>
      unfold muteLoop
      rw [List.range_succ_eq_map, List.foldl_cons, List.foldl_map]
      rw [show (x :: xs).set 0 b = b :: xs from rfl]
      have hshift := foldl_set_shift b (List.range k) b xs
      simp only [Nat.succ_eq_add_one] at hshift ⊢
      rw [hshift]
      rw [show (List.range k).foldl (fun a j => a.set j b) xs = muteLoop k b xs from rfl]
      rw [ih b xs (by simpa using h)]
      rfl

theorem trackLoop_ok (failAt : Nat → Bool) (n : Nat) :
    ∀ (l : List Nat) (m : List Bool) (ex : List Nat),
      (∀ j ∈ l, failAt j = false) →
      ∃ m2, trackLoop failAt n l m ex = ⟨m2, ex ++ l, none⟩ ∧ m2.length = m.length := by
  intro l
  induction l with
  | nil => intro m ex h; exact ⟨m, by simp [trackLoop], rfl⟩
  | cons i t ih =>
    intro m ex h
    have hi : failAt i = false := h i (by simp)
    obtain ⟨m2, heq, hlen⟩ :=
      ih ((muteLoop n true m).set i false) (ex ++ [i]) (fun j hj => h j (by simp [hj]))
    refine ⟨m2, ?_, ?_⟩
    · simp only [trackLoop, hi, Bool.false_eq_true, if_false]
      rw [heq]
      simp
    · rw [hlen]
      simp [muteLoop_length]

theorem trackLoop_fails (failAt : Nat → Bool) (n : Nat) :
    ∀ (l1 : List Nat) (i : Nat) (l2 : List Nat) (m : List Bool) (ex : List Nat),
      (∀ j ∈ l1, failAt j = false) → failAt i = true →
      ∃ m2, trackLoop failAt n (l1 ++ i :: l2) m ex = ⟨m2, ex ++ l1, some i⟩ := by
  intro l1
  induction l1 with
  | nil =>
    intro i l2 m ex h hf
    exact ⟨(muteLoop n true m).set i false, by simp [trackLoop, hf]⟩
  | cons a t ih =>
    intro i l2 m ex h hf
    have ha : failAt a = false := h a (by simp)
    obtain ⟨m2, heq⟩ :=
      ih i l2 ((muteLoop n true m).set a false) (ex ++ [a]) (fun j hj => h j (by simp [hj])) hf
    refine ⟨m2, ?_⟩
    simp only [List.cons_append, trackLoop, ha, Bool.false_eq_true, if_false,
      List.append_eq]
    rw [heq]
    simp

/-- C2 amended: when no per-track export raises (and there is at least one
track), the loop completes, the final restore pass runs, and every track
ends unmuted; the restore pass is on the normal-completion path only — a
raising export aborts the run before it (see the counterexample). -/
theorem track_export_restores_when_no_failure (failAt : Nat → Bool) (n : Nat)
    (m0 : List Bool) (hn : 1 ≤ n) (hlen : m0.length = n)
    (hok : ∀ i, i < n → failAt i = false) :
    (export_tracks_individually failAt n m0).mutes = List.replicate n false := by
  obtain ⟨m2, heq, hlen2⟩ :=
    trackLoop_ok failAt n (List.range n) m0 [] (fun j hj => hok j (List.mem_range.mp hj))
  unfold export_tracks_individually
  rw [if_neg (by omega)]
  simp only [heq]
  rw [muteLoop_replicate n false m2 (by rw [hlen2, hlen])]

/-- Witness for the amended C2 theorem at a concrete failure-free run. -/
theorem track_export_restores_when_no_failure_witness :
    (export_tracks_individually noFail 2 [true, false]).mutes = List.replicate 2 false :=
  track_export_restores_when_no_failure noFail 2 [true, false] (by decide) (by decide)
    (fun i hi => rfl)

/-- C3 amended: a failure while exporting track `i` (the first failing
track) propagates out of the loop and aborts the workflow: exactly the
tracks before `i` have been exported, the tracks after `i` are never
attempted, and the run records the aborting index. -/
theorem track_export_aborts_at_first_failure (failAt : Nat → Bool) (n i : Nat)
    (m0 : List Bool) (hi : i < n) (hbefore : ∀ j, j < i → failAt j = false)
    (hfail : failAt i = true) :
    (export_tracks_individually failAt n m0).exported = List.range i ∧
    (export_tracks_individually failAt n m0).failed = some i := by
  have hsplit : List.range n =
      List.range i ++ i :: List.map (fun x => i + 1 + x) (List.range (n - i - 1)) := by
    have h1 : n = i + (n - i) := by omega
    have h2 : n - i = 1 + (n - i - 1) := by omega
    rw [h1, List.range_add, h2, List.range_add]
    simp [List.map_map, Function.comp, List.range_succ, add_assoc]
  obtain ⟨m2, heq⟩ :=
    trackLoop_fails failAt n (List.range i) i
      (List.map (fun x => i + 1 + x) (List.range (n - i - 1))) m0 []
      (fun j hj => hbefore j (List.mem_range.mp hj)) hfail
  unfold export_tracks_individually
  rw [if_neg (by omega), hsplit, heq]
  simp

/-- Witness for the amended C3 theorem at a concrete failing run. -/
theorem track_export_aborts_at_first_failure_witness :
    (export_tracks_individually failAtZero 2 [false, false]).exported = List.range 0 ∧
    (export_tracks_individually failAtZero 2 [false, false]).failed = some 0 :=
  track_export_aborts_at_first_failure failAtZero 2 0 [false, false] (by decide)
    (fun j hj => absurd hj (by omega)) (by decide)

theorem clip_filter_stage_eq (tracks : List TrackJson) (c : ClipJson) :
    (keptByMuteFilter tracks c && validClipData c) = specClipIncluded tracks c := by
  have hneg : ((-1 : Int) == (-1 : Int)) = true := by decide
  have hm10 : decide ((-10 : Rat) < 0) = true := by decide
  unfold keptByMuteFilter validClipData specClipIncluded
  rcases ht : c.track with _ | t
  · rcases hs : c.start with _ | s <;> rcases he : c.stop with _ | e <;>
      simp [ht, hs, he, hneg]
  · rcases hs : c.start with _ | s
    · rcases he : c.stop with _ | e <;> simp [ht, hs, he, hm10]
    · rcases he : c.stop with _ | e
      · simp only [ht, hs, he, Option.getD_none, Option.getD_some]
        by_cases hlt : s < 0
        · simp [hlt]
        · have h0 : (0 : Rat) ≤ s := not_lt.mp hlt
          have hle : (-10 : Rat) ≤ s := le_trans (by norm_num) h0
          simp [hlt, hle]
      · simp only [ht, hs, he, Option.getD_none, Option.getD_some]
        rw [Bool.eq_iff_iff]
        simp only [Bool.and_eq_true, Bool.not_eq_true', Bool.or_eq_false_iff,
          decide_eq_false_iff_not, decide_eq_true_eq, beq_eq_false_iff_ne,
          not_lt, not_le]
        tauto

/-- C4: in the clip-export workflow, an export is attempted for a clip iff
its owning track's mute flag is false or absent (absent entries default to
unmuted), its start time is ≥ 0, its end time strictly exceeds its start,
and its track reference resolves (a `track` key present and not the `-1`
sentinel); every clip failing any condition is filtered out of the
attempted list — skipped, not an error. -/
theorem clip_export_filter_iff (tracks : List TrackJson) (clips : List ClipJson)
    (c : ClipJson) :
    c ∈ attemptedClips tracks clips ↔ c ∈ clips ∧ specClipIncluded tracks c = true := by
  unfold attemptedClips clips_to_export
  rw [List.mem_filter, List.mem_filter]
  constructor
  · rintro ⟨⟨hc, hk⟩, hv⟩
    refine ⟨hc, ?_⟩
    rw [← clip_filter_stage_eq tracks c, hk, hv]
    rfl
  · rintro ⟨hc, hs⟩
    have h2 : (keptByMuteFilter tracks c && validClipData c) = true := by
      rw [clip_filter_stage_eq tracks c]
      exact hs
    rw [Bool.and_eq_true] at h2
    exact ⟨⟨hc, h2.1⟩, h2.2⟩

theorem removeOccs_nil (pat : List Char) (fuel : Nat) : removeOccs pat fuel [] = [] := by
  cases fuel <;> rfl

theorem isPrefixOf_iff_exists : ∀ (l1 l2 : List Char),
    l1.isPrefixOf l2 = true ↔ ∃ t, l1 ++ t = l2 := by
  intro l1
  induction l1 with
  | nil => intro l2; simp [List.isPrefixOf]
  | cons a as ih =>
    intro l2
    cases l2 with
    | nil => simp [List.isPrefixOf]
    | cons b bs =>
      simp only [List.isPrefixOf, Bool.and_eq_true, beq_iff_eq, ih bs, List.cons_append]
      constructor
      · rintro ⟨hab, t, ht⟩
        exact ⟨t, by rw [hab, ht]⟩
      · rintro ⟨t, ht⟩
        injection ht with h1 h2
        exact ⟨h1, t, h2⟩

theorem isPrefixOf_self (l : List Char) : l.isPrefixOf l = true :=
  (isPrefixOf_iff_exists l l).mpr ⟨[], List.append_nil l⟩

theorem isPrefixOf_dropLast {pat v : List Char} (h : pat.isPrefixOf v = true)
    (hlt : pat.length < v.length) : pat.isPrefixOf v.dropLast = true := by
  obtain ⟨t, ht⟩ := (isPrefixOf_iff_exists pat v).mp h
  have htne : t ≠ [] := by
    intro h0
    rw [h0, List.append_nil] at ht
    rw [ht] at hlt
    exact lt_irrefl _ hlt
  rw [← ht, List.dropLast_append_of_ne_nil pat htne]
  exact (isPrefixOf_iff_exists pat (pat ++ t.dropLast)).mpr ⟨t.dropLast, rfl⟩

theorem removeOccs_append_self (pat : List Char) (hne : pat ≠ []) :
    ∀ (s : List Char) (fuel : Nat), (s ++ pat).length ≤ fuel →
      hasOcc pat (s ++ pat.dropLast) = false →
      removeOccs pat fuel (s ++ pat) = s := by
  intro s
  induction s with
  | nil =>
    intro fuel hfuel hocc
    cases pat with
    | nil => exact absurd rfl hne
    | cons p ps =>
      cases fuel with
      | zero => simp at hfuel
      | succ f =>
        show removeOccs (p :: ps) (f + 1) ([] ++ (p :: ps)) = []
        rw [List.nil_append]
        have hstep : removeOccs (p :: ps) (f + 1) (p :: ps) =
            removeOccs (p :: ps) f ((p :: ps).drop (p :: ps).length) := by
          simp [removeOccs, isPrefixOf_self]
        rw [hstep, List.drop_length, removeOccs_nil]
  | cons c cs ih =>
    intro fuel hfuel hocc
    cases fuel with
    | zero => simp at hfuel
    | succ f =>
      have hnp : pat.isPrefixOf (c :: (cs ++ pat)) = false := by
        cases hx : pat.isPrefixOf (c :: (cs ++ pat)) with
        | false => rfl
        | true =>
          exfalso
          have hlt : pat.length < (c :: (cs ++ pat)).length := by
            simp [List.length_cons, List.length_append]
            omega
          have hdl := isPrefixOf_dropLast hx hlt
          have heq : (c :: (cs ++ pat)).dropLast = c :: (cs ++ pat.dropLast) := by
            rw [show c :: (cs ++ pat) = (c :: cs) ++ pat from rfl,
              List.dropLast_append_of_ne_nil (c :: cs) hne]
            rfl
          rw [heq] at hdl
          have hT : hasOcc pat (c :: (cs ++ pat.dropLast)) = true := by
            simp [hasOcc, hdl]
          rw [show (c :: cs) ++ pat.dropLast = c :: (cs ++ pat.dropLast) from rfl] at hocc
          rw [hT] at hocc
          exact Bool.noConfusion hocc
      have hcond : ¬(pat.isPrefixOf (c :: (cs ++ pat)) = true ∧ pat ≠ []) := by
        rintro ⟨h1, _⟩
        rw [hnp] at h1
        exact Bool.noConfusion h1
      show removeOccs pat (f + 1) (c :: (cs ++ pat)) = c :: cs
      rw [show removeOccs pat (f + 1) (c :: (cs ++ pat)) =
        if pat.isPrefixOf (c :: (cs ++ pat)) = true ∧ pat ≠ [] then
          removeOccs pat f ((c :: (cs ++ pat)).drop pat.length)
        else c :: removeOccs pat f (cs ++ pat) from rfl]
      rw [if_neg hcond]
      congr 1
      refine ih f ?_ ?_
      · simp only [List.length_append, List.length_cons] at hfuel ⊢
        omega
      · have hocc' : hasOcc pat (c :: (cs ++ pat.dropLast)) = false := by
          rw [show (c :: cs) ++ pat.dropLast = c :: (cs ++ pat.dropLast) from rfl] at hocc
          exact hocc
        simp only [hasOcc, Bool.or_eq_false_iff] at hocc'
        exact hocc'.2

theorem trimList_append_sentinel (p : List Char)
    (hlead : List.dropWhile Char.isWhitespace p = p) :
    trimList (p ++ sentinel) = p ++ sentinel := by
  unfold trimList
  have h1 : List.dropWhile Char.isWhitespace (p ++ sentinel) = p ++ sentinel := by
    rw [List.dropWhile_append]
    by_cases hp : p = []
    · subst hp
      simpa using (by decide : List.dropWhile Char.isWhitespace sentinel = sentinel)
    · rw [hlead]
      simp [List.isEmpty_eq_false.mpr hp]
  rw [h1]
  have hsplit : p ++ sentinel = (p ++ "BatchCommand finished: O".toList) ++ ['K'] := by
    rw [List.append_assoc]
    rfl
  rw [hsplit, List.rdropWhile_concat_neg Char.isWhitespace
    (p ++ "BatchCommand finished: O".toList) 'K' (by decide)]

/-- C6 amended: on success the client removes every occurrence of the
sentinel `BatchCommand finished: OK` from the whitespace-trimmed response
(not only a trailing one) and trims surrounding whitespace from the result;
in particular, whenever the sentinel occurs in the accumulated text only as
a trailing suffix and the text has no leading whitespace, the returned text
is the whitespace-trimmed remainder. -/
theorem clean_strips_trailing_sentinel (p : List Char)
    (hocc : hasOcc sentinel (p ++ sentinel.dropLast) = false)
    (hlead : List.dropWhile Char.isWhitespace p = p) :
    cleanResponse (p ++ sentinel) = trimList p := by
  unfold cleanResponse pyReplaceEmpty
  rw [trimList_append_sentinel p hlead]
  rw [removeOccs_append_self sentinel (by decide) p ((p ++ sentinel).length)
    le_rfl hocc]

/-- C6 counterexample: a response whose sentinel occurrence is not a
trailing suffix is still altered — the mid-text occurrence is removed — so
text other than a trailing sentinel is not returned unchanged. -/
theorem clean_alters_nontrailing_text :
    cleanResponse "x BatchCommand finished: OK y".toList = "x  y".toList ∧
    cleanResponse "x BatchCommand finished: OK y".toList ≠
      "x BatchCommand finished: OK y".toList := by
  decide

/-- Witness for the amended C6 theorem at a concrete response. -/
theorem clean_strips_trailing_sentinel_witness :
    hasOcc sentinel ("Some output\n".toList ++ sentinel.dropLast) = false ∧
    cleanResponse ("Some output\n".toList ++ sentinel) = trimList "Some output\n".toList :=
  ⟨by decide, clean_strips_trailing_sentinel "Some output\n".toList (by decide) (by decide)⟩

theorem dropWhile_idem {p : Char → Bool} : ∀ l : List Char,
    List.dropWhile p (List.dropWhile p l) = List.dropWhile p l := by
  intro l
  induction l with
  | nil => rfl
  | cons a t ih =>
    rw [List.dropWhile_cons]
    by_cases hp : p a = true
    · rw [if_pos hp]; exact ih
    · rw [if_neg hp, List.dropWhile_cons, if_neg hp]

theorem dropWhile_eq_self_of_isPre {p : Char → Bool} {l l2 : List Char}
    (h : List.dropWhile p l = l) (hpre : l2 <+: l) : List.dropWhile p l2 = l2 := by
  cases l2 with
  | nil => rfl
  | cons c t =>
    obtain ⟨r, hr⟩ := hpre
    have hpc : p c = false := by
      rw [← hr, List.cons_append, List.dropWhile_cons] at h
      by_cases hp : p c = true
      · rw [if_pos hp] at h
        have hle : (List.dropWhile p (t ++ r)).length ≤ (t ++ r).length :=
          (List.dropWhile_sublist p).length_le
        rw [h] at hle
        simp at hle
      · simpa using hp
    rw [List.dropWhile_cons, if_neg (by simp [hpc])]

theorem rdropWhile_isPre (p : Char → Bool) (l : List Char) :
    List.rdropWhile p l <+: l := by
  have hs : List.dropWhile p l.reverse <:+ l.reverse := List.dropWhile_suffix p
  obtain ⟨t, ht⟩ := hs
  refine ⟨t.reverse, ?_⟩
  rw [List.rdropWhile, ← List.reverse_append, ht, List.reverse_reverse]

theorem replaceInvalidChars_clean (s : List Char) :
    ∀ c ∈ replaceInvalidChars s, invalidFilenameChar c = false := by
  intro c hc
  rw [replaceInvalidChars, List.mem_map] at hc
  obtain ⟨a, ha, rfl⟩ := hc
  by_cases h : invalidFilenameChar a = true
  · rw [if_pos h]; decide
  · rw [if_neg h]; simpa using h

theorem sanitize_chars_clean (s : List Char) :
    ∀ c ∈ sanitize_filename s, invalidFilenameChar c = false := by
  intro c hc
  unfold sanitize_filename defaultName at hc
  by_cases h3 : truncateName (stripName (replaceInvalidChars s)) = []
  · rw [if_pos h3] at hc
    exact (by decide : ∀ x ∈ "unnamed".toList, invalidFilenameChar x = false) c hc
  · rw [if_neg h3] at hc
    have h2 : c ∈ stripName (replaceInvalidChars s) := by
      unfold truncateName at hc
      by_cases hlen : (stripName (replaceInvalidChars s)).length > 200
      · rw [if_pos hlen] at hc
        exact List.take_subset _ _ hc
      · rw [if_neg hlen] at hc
        exact hc
    have h1 : c ∈ replaceInvalidChars s := by
      unfold stripName at h2
      have hb : c ∈ List.dropWhile stripDotSpace (replaceInvalidChars s) :=
        (rdropWhile_isPre stripDotSpace _).subset h2
      exact (List.dropWhile_sublist stripDotSpace).subset hb
    exact replaceInvalidChars_clean s c h1

theorem replaceInvalidChars_id {l : List Char}
    (h : ∀ c ∈ l, invalidFilenameChar c = false) : replaceInvalidChars l = l := by
  unfold replaceInvalidChars
  induction l with
  | nil => rfl
  | cons a t ih =>
    simp only [List.map_cons]
    rw [if_neg (by simp [h a (by simp)]), ih (fun c hc => h c (by simp [hc]))]

theorem sanitize_dropWhile_eq (s : List Char) :
    List.dropWhile stripDotSpace (sanitize_filename s) = sanitize_filename s := by
  unfold sanitize_filename defaultName
  by_cases h3 : truncateName (stripName (replaceInvalidChars s)) = []
  · rw [if_pos h3]; decide
  · rw [if_neg h3]
    have hstrip : List.dropWhile stripDotSpace (stripName (replaceInvalidChars s)) =
        stripName (replaceInvalidChars s) := by
      unfold stripName
      exact dropWhile_eq_self_of_isPre (dropWhile_idem _) (rdropWhile_isPre _ _)
    unfold truncateName
    by_cases hlen : (stripName (replaceInvalidChars s)).length > 200
    · rw [if_pos hlen]
      exact dropWhile_eq_self_of_isPre hstrip ⟨_, List.take_append_drop 200 _⟩
    · rw [if_neg hlen]
      exact hstrip

theorem sanitize_length_le (s : List Char) : (sanitize_filename s).length ≤ 200 := by
  unfold sanitize_filename defaultName
  by_cases h3 : truncateName (stripName (replaceInvalidChars s)) = []
  · rw [if_pos h3]; decide
  · rw [if_neg h3]
    unfold truncateName
    by_cases hlen : (stripName (replaceInvalidChars s)).length > 200
    · rw [if_pos hlen]
      simp [List.length_take]
    · rw [if_neg hlen]
      omega

theorem sanitize_ne_nil (s : List Char) : sanitize_filename s ≠ [] := by
  unfold sanitize_filename defaultName
  by_cases h3 : truncateName (stripName (replaceInvalidChars s)) = []
  · rw [if_pos h3]; decide
  · rw [if_neg h3]
    exact h3

/-- C8 amended: `sanitize_filename` is idempotent on every input whose
sanitized result does not end in a dot or space — in particular whenever no
truncation occurs; when the 200-character truncation exposes a trailing dot
or space, a second application strips it further (see the
counterexample). -/
theorem sanitize_filename_idem_of_no_trailing (s : List Char)
    (h : List.rdropWhile stripDotSpace (sanitize_filename s) = sanitize_filename s) :
    sanitize_filename (sanitize_filename s) = sanitize_filename s := by
  have hid : replaceInvalidChars (sanitize_filename s) = sanitize_filename s :=
    replaceInvalidChars_id (sanitize_chars_clean s)
  show defaultName (truncateName (stripName (replaceInvalidChars (sanitize_filename s)))) =
    sanitize_filename s
  rw [hid]
  unfold stripName
  rw [sanitize_dropWhile_eq s, h]
  unfold truncateName
  rw [if_neg (by have := sanitize_length_le s; omega)]
  unfold defaultName
  rw [if_neg (sanitize_ne_nil s)]

set_option maxRecDepth 40000 in
/-- C8 counterexample: a 201-character name whose 200-character truncation
ends in a space is not a fixed point of `sanitize_filename` after one
application — sanitizing again strips the exposed trailing space. -/
theorem sanitize_filename_not_idempotent :
    sanitize_filename longSpacedName = List.replicate 199 'a' ++ [' '] ∧
    sanitize_filename (sanitize_filename longSpacedName) = List.replicate 199 'a' ∧
    sanitize_filename (sanitize_filename longSpacedName) ≠
      sanitize_filename longSpacedName := by
  decide

/-- Witness for the amended C8 theorem at a concrete name. -/
theorem sanitize_filename_idem_of_no_trailing_witness :
    List.rdropWhile stripDotSpace (sanitize_filename "My:Clip*".toList) =
      sanitize_filename "My:Clip*".toList ∧
    sanitize_filename (sanitize_filename "My:Clip*".toList) =
      sanitize_filename "My:Clip*".toList :=
  ⟨by decide, sanitize_filename_idem_of_no_trailing "My:Clip*".toList (by decide)⟩
